import Mathlib

/-!
NmtNodeAdder (ipld/nmt_adder.go)

A shallow embedding of the visitor that bridges the NMT builder to an
ipld.NodeAdder, together with the properties stated about it.

The adder is a mutable Go object; here every method takes the object and
returns the object after the call.  The ipld.NodeAdder behind it, the
cid.Set and the CID constructor belong to other packages: the NodeAdder is
represented by the history of the calls it received, its answers are given
by an environment, and a Go panic is an explicit outcome of a call.
-/

namespace Ipld

/-- Byte strings (Go []byte), one natural number per byte. -/
abbrev Bytes := List Nat

/-- Go error values; the nil error is Option.none. -/
abbrev Error := String

/-- A content identifier (cid.Cid), identified with its raw bytes. -/
structure Cid where
  raw : Bytes
deriving DecidableEq, Repr

/-- The two ipld nodes the adder builds: plugin.NewNMTLeafNode(id, data)
and plugin.NewNMTNode(id, l, r), kept as the constructor applied to its
arguments. -/
inductive Node where
  | NMTLeafNode (id : Cid) (data : Bytes)
  | NMTNode (id : Cid) (l r : Bytes)
deriving DecidableEq, Repr

/-- An ipld.NodeAdder seen from outside: whether its dynamic type is
*ipld.Batch, every Add it has received so far with the error it answered
(oldest first), and how many times Commit was called on it. Only the calls
made on it are recorded: what an ipld.Batch writes to its store on its own
from inside Add, once its queue is full, is not. -/
structure NodeAdder where
  isBatch : Bool
  adds : List (Node × Option Error)
  commits : Nat
deriving DecidableEq, Repr

/-- What lies outside nmt_adder.go.  MustCidFromNamespacedSha256 is the
function of package plugin (its panic, if any, is the error branch); addErr
and commitErr are the answers of the ipld.NodeAdder to Add and of the
ipld.Batch to Commit, as a function of everything the adder has received
before. -/
structure Env where
  MustCidFromNamespacedSha256 : Bytes → Except String Cid
  addErr : NodeAdder → Node → Option Error
  commitErr : NodeAdder → Option Error

/-- How a call ends: it returns, or it panics with a value; in both cases
the receiver object is left in some state. -/
inductive Outcome (α : Type) where
  | returned (s : α)
  | panicked (msg : String) (s : α)
deriving DecidableEq, Repr

/-- The state of the receiver when the call ended. -/
def Outcome.state {α : Type} : Outcome α → α
  | .returned s => s
  | .panicked _ s => s

/-- True when the call returned to its caller. -/
def Outcome.isReturned {α : Type} : Outcome α → Bool
  | .returned _ => true
  | .panicked _ _ => false

/-- The method Add of ipld.NodeAdder: the call is recorded with its answer. -/
def NodeAdder.Add (env : Env) (a : NodeAdder) (nd : Node) : NodeAdder × Option Error :=
  let e := env.addErr a nd
  ({ a with adds := a.adds ++ [(nd, e)] }, e)

/-- The method Commit of ipld.Batch: one more call of Commit, with its
answer. -/
def NodeAdder.Commit (env : Env) (a : NodeAdder) : NodeAdder × Option Error :=
  let e := env.commitErr a
  ({ a with commits := a.commits + 1 }, e)

/-- The method Visit of cid.Set: inserts the CID when it is absent and
reports whether it was absent. -/
def CidSetVisit (s : Finset Cid) (c : Cid) : Finset Cid × Bool :=
  if c ∈ s then (s, false) else (insert c s, true)

/-- The struct NmtNodeAdder (the context field carries no state). -/
structure NmtNodeAdder where
  add : NodeAdder
  leaves : Finset Cid
  err : Option Error
deriving DecidableEq

/-- NewNmtNodeAdder: a new ipld.Batch, an empty set, no error. -/
def NewNmtNodeAdder : NmtNodeAdder :=
  { add := { isBatch := true, adds := [], commits := 0 }, leaves := ∅, err := none }

/-- NmtNodeAdder.Visit. -/
def NmtNodeAdder.Visit (env : Env) (n : NmtNodeAdder) (hash : Bytes)
    (children : List Bytes) : Outcome NmtNodeAdder :=
  if n.err.isSome then
    .returned n
  else
    match env.MustCidFromNamespacedSha256 hash with
    | .error msg => .panicked msg n
    | .ok id =>
      match children with
      | [c0] =>
        let r := CidSetVisit n.leaves id
        if r.2 then
          let a := n.add.Add env (Node.NMTLeafNode id c0)
          .returned { add := a.1, leaves := r.1, err := a.2 }
        else
          .returned { n with leaves := r.1 }
      | [c0, c1] =>
        let a := n.add.Add env (Node.NMTNode id c0 c1)
        .returned { n with add := a.1, err := a.2 }
      | _ => .panicked "expected a binary tree" n

/-- NmtNodeAdder.NodeAdder. -/
def NmtNodeAdder.NodeAdder (n : NmtNodeAdder) : NodeAdder := n.add

/-- NmtNodeAdder.Commit: the adder after the call and the error returned. -/
def NmtNodeAdder.Commit (env : Env) (n : NmtNodeAdder) : NmtNodeAdder × Option Error :=
  match n.err with
  | some e => (n, some e)
  | none =>
    if n.add.isBatch then
      let r := n.add.Commit env
      ({ n with add := r.1 }, r.2)
    else
      (n, none)

/-- One call of Visit as the NMT builder issues it. -/
structure VisitCall where
  hash : Bytes
  children : List Bytes
deriving DecidableEq, Repr

/-- A sequence of Visit calls issued one after the other by one caller; a
panic ends the sequence where it happens. -/
def visitAll (env : Env) : NmtNodeAdder → List VisitCall → Outcome NmtNodeAdder
  | n, [] => .returned n
  | n, v :: vs =>
    match n.Visit env v.hash v.children with
    | .returned n1 => visitAll env n1 vs
    | .panicked msg n1 => .panicked msg n1

/-- The call has one or two children and its hash has a CID. -/
def VisitCall.Valid (env : Env) (v : VisitCall) : Prop :=
  (v.children.length = 1 ∨ v.children.length = 2) ∧
    (env.MustCidFromNamespacedSha256 v.hash).toBool = true

instance (env : Env) (v : VisitCall) : Decidable (v.Valid env) := by
  unfold VisitCall.Valid; infer_instance

/-- The CID of a leaf visit (one child), none for any other call. -/
def VisitCall.leafCid (env : Env) (v : VisitCall) : Option Cid :=
  match env.MustCidFromNamespacedSha256 v.hash, v.children with
  | .ok id, [_] => some id
  | _, _ => none

/-- The node a visit stands for: a leaf for one child, an internal node
for two children. -/
def VisitCall.toNode (env : Env) (v : VisitCall) : Option Node :=
  match env.MustCidFromNamespacedSha256 v.hash, v.children with
  | .ok id, [c0] => some (.NMTLeafNode id c0)
  | .ok id, [c0, c1] => some (.NMTNode id c0 c1)
  | _, _ => none

/-- The expected queue, written from the description and not from the
code: the visits mapped to their nodes, in order, without the leaf visits
whose CID is the CID of a leaf visit that came earlier. -/
def expectedQueue (env : Env) (earlier : List VisitCall) : List VisitCall → List Node
  | [] => []
  | v :: vs =>
    let repeated : Bool :=
      (v.leafCid env).isSome && earlier.any (fun u => u.leafCid env == v.leafCid env)
    (if repeated then [] else (v.toNode env).toList) ++ expectedQueue env (earlier ++ [v]) vs

/-- A recorded Add is the Add of a leaf node with the given CID. -/
def isLeafAdd (id : Cid) (x : Node × Option Error) : Bool :=
  match x.1 with
  | .NMTLeafNode i _ => i == id
  | .NMTNode _ _ _ => false

/-- An environment for examples: every non-empty hash has a CID (its own
bytes), Add fails on the nodes whose CID is in failOn, and Commit answers
commitAnswer. -/
def sampleEnv (failOn : List Cid) (commitAnswer : Option Error) : Env :=
  { MustCidFromNamespacedSha256 := fun h =>
      if h = [] then .error "malformed hash" else .ok ⟨h⟩
    addErr := fun _ nd =>
      match nd with
      | .NMTLeafNode id _ => if id ∈ failOn then some "add failed" else none
      | .NMTNode id _ _ => if id ∈ failOn then some "add failed" else none
    commitErr := fun _ => commitAnswer }

/-- The recorded Adds and the latch agree: either nothing is latched and
every recorded Add succeeded, or the last recorded Add failed, every Add
before it succeeded, and its error is the latched one. -/
def FirstErrorLatched (n : NmtNodeAdder) : Prop :=
  (n.err = none ∧ ∀ x ∈ n.add.adds, x.2 = none) ∨
  (∃ pre nd e, n.add.adds = pre ++ [(nd, some e)] ∧ (∀ x ∈ pre, x.2 = none) ∧ n.err = some e)

/-- The adders the code builds: the one NewNmtNodeAdder returns, and an
adder after a call of Visit (returned or panicked) or of Commit on an adder
the code builds. -/
inductive Reachable (env : Env) : NmtNodeAdder → Prop where
  | new : Reachable env NewNmtNodeAdder
  | visit (n : NmtNodeAdder) (hash : Bytes) (children : List Bytes) :
      Reachable env n → Reachable env (n.Visit env hash children).state
  | commit (n : NmtNodeAdder) : Reachable env n → Reachable env (n.Commit env).1

/-! ## Single calls -/

theorem Visit_of_latched (env : Env) (n : NmtNodeAdder) (hash : Bytes)
    (children : List Bytes) (e : Error) (h : n.err = some e) :
    n.Visit env hash children = .returned n := by
  simp [NmtNodeAdder.Visit, h]

theorem Visit_leaf_unseen (env : Env) (n : NmtNodeAdder) (hash c0 : Bytes) (id : Cid)
    (herr : n.err = none) (hid : env.MustCidFromNamespacedSha256 hash = .ok id)
    (hnew : id ∉ n.leaves) :
    n.Visit env hash [c0] = .returned
      { add := { n.add with
                 adds := n.add.adds ++
                   [(Node.NMTLeafNode id c0, env.addErr n.add (Node.NMTLeafNode id c0))] }
        leaves := insert id n.leaves
        err := env.addErr n.add (Node.NMTLeafNode id c0) } := by
  simp [NmtNodeAdder.Visit, herr, hid, CidSetVisit, hnew, NodeAdder.Add]

theorem Visit_leaf_seen (env : Env) (n : NmtNodeAdder) (hash c0 : Bytes) (id : Cid)
    (herr : n.err = none) (hid : env.MustCidFromNamespacedSha256 hash = .ok id)
    (hold : id ∈ n.leaves) :
    n.Visit env hash [c0] = .returned n := by
  cases n
  simp_all [NmtNodeAdder.Visit, CidSetVisit]

theorem Visit_inner (env : Env) (n : NmtNodeAdder) (hash c0 c1 : Bytes) (id : Cid)
    (herr : n.err = none) (hid : env.MustCidFromNamespacedSha256 hash = .ok id) :
    n.Visit env hash [c0, c1] = .returned
      { add := { n.add with
                 adds := n.add.adds ++
                   [(Node.NMTNode id c0 c1, env.addErr n.add (Node.NMTNode id c0 c1))] }
        leaves := n.leaves
        err := env.addErr n.add (Node.NMTNode id c0 c1) } := by
  simp [NmtNodeAdder.Visit, herr, hid, NodeAdder.Add]

theorem toBool_ok {env : Env} {hash : Bytes}
    (h : (env.MustCidFromNamespacedSha256 hash).toBool = true) :
    ∃ id, env.MustCidFromNamespacedSha256 hash = .ok id := by
  cases hm : env.MustCidFromNamespacedSha256 hash with
  | error m => simp [hm, Except.toBool] at h
  | ok id => exact ⟨id, rfl⟩

theorem Visit_keeps_isBatch (env : Env) (n : NmtNodeAdder) (hash : Bytes)
    (children : List Bytes) :
    (n.Visit env hash children).state.add.isBatch = n.add.isBatch := by
  unfold NmtNodeAdder.Visit
  split
  · rfl
  · split
    · rfl
    · split
      · dsimp only
        split <;> rfl
      · rfl
      · rfl

theorem Commit_keeps_isBatch (env : Env) (n : NmtNodeAdder) :
    (n.Commit env).1.add.isBatch = n.add.isBatch := by
  unfold NmtNodeAdder.Commit
  split
  · rfl
  · split <;> rfl

/-- Every adder the code builds holds an ipld.Batch. -/
theorem Reachable_isBatch (env : Env) (n : NmtNodeAdder) (h : Reachable env n) :
    n.add.isBatch = true := by
  induction h with
  | new => rfl
  | visit n hash children _ ih => rw [Visit_keeps_isBatch]; exact ih
  | commit n _ ih => rw [Commit_keeps_isBatch]; exact ih

theorem Commit_of_unlatched_batch (env : Env) (n : NmtNodeAdder) (he : n.err = none)
    (hb : n.add.isBatch = true) :
    n.Commit env =
      ({ n with add := { n.add with commits := n.add.commits + 1 } }, env.commitErr n.add) := by
  simp [NmtNodeAdder.Commit, he, hb, NodeAdder.Commit]

theorem Commit_of_latched (env : Env) (n : NmtNodeAdder) (e : Error) (he : n.err = some e) :
    n.Commit env = (n, some e) := by
  simp [NmtNodeAdder.Commit, he]

theorem Visit_panicked_state (env : Env) (n n1 : NmtNodeAdder) (hash : Bytes)
    (children : List Bytes) (msg : String)
    (h : n.Visit env hash children = .panicked msg n1) : n1 = n := by
  unfold NmtNodeAdder.Visit at h
  split at h
  · cases h
  · split at h
    · cases h; rfl
    · split at h
      · dsimp only at h
        split at h <;> cases h
      · cases h
      · cases h; rfl

theorem Visit_valid (env : Env) (n : NmtNodeAdder) (v : VisitCall)
    (herr : n.err = none) (hv : v.Valid env) :
    ∃ id n1, env.MustCidFromNamespacedSha256 v.hash = .ok id ∧
      n.Visit env v.hash v.children = .returned n1 ∧
      n1.add.isBatch = n.add.isBatch ∧ n1.add.commits = n.add.commits ∧
      ((∃ c0, v.children = [c0] ∧ id ∈ n.leaves ∧ n1 = n) ∨
       (∃ c0, v.children = [c0] ∧ id ∉ n.leaves ∧
          n1.add.adds = n.add.adds ++
            [(Node.NMTLeafNode id c0, env.addErr n.add (Node.NMTLeafNode id c0))] ∧
          n1.leaves = insert id n.leaves ∧
          n1.err = env.addErr n.add (Node.NMTLeafNode id c0)) ∨
       (∃ c0 c1, v.children = [c0, c1] ∧
          n1.add.adds = n.add.adds ++
            [(Node.NMTNode id c0 c1, env.addErr n.add (Node.NMTNode id c0 c1))] ∧
          n1.leaves = n.leaves ∧
          n1.err = env.addErr n.add (Node.NMTNode id c0 c1))) := by
  obtain ⟨hlen, hcid⟩ := hv
  obtain ⟨id, hid⟩ := toBool_ok hcid
  rcases hlen with hlen | hlen
  · obtain ⟨c0, hc⟩ := List.length_eq_one.mp hlen
    rw [hc]
    by_cases hmem : id ∈ n.leaves
    · exact ⟨id, n, hid, Visit_leaf_seen env n _ c0 id herr hid hmem,
        rfl, rfl, Or.inl ⟨c0, rfl, hmem, rfl⟩⟩
    · exact ⟨id, _, hid, Visit_leaf_unseen env n _ c0 id herr hid hmem,
        rfl, rfl, Or.inr (Or.inl ⟨c0, rfl, hmem, rfl, rfl, rfl⟩)⟩
  · obtain ⟨c0, c1, hc⟩ := List.length_eq_two.mp hlen
    rw [hc]
    exact ⟨id, _, hid, Visit_inner env n _ c0 c1 id herr hid,
      rfl, rfl, Or.inr (Or.inr ⟨c0, c1, rfl, rfl, rfl, rfl⟩)⟩

theorem Visit_bad_arity (env : Env) (n : NmtNodeAdder) (hash : Bytes)
    (children : List Bytes) (herr : n.err = none)
    (h1 : children.length ≠ 1) (h2 : children.length ≠ 2) :
    ∃ msg, n.Visit env hash children = .panicked msg n ∧
      (∀ id, env.MustCidFromNamespacedSha256 hash = .ok id →
        msg = "expected a binary tree") := by
  unfold NmtNodeAdder.Visit
  simp only [herr, Option.isSome_none, Bool.false_eq_true, if_false]
  cases hm : env.MustCidFromNamespacedSha256 hash with
  | error m => exact ⟨m, rfl, fun id hid => by cases hid⟩
  | ok id =>
    refine ⟨"expected a binary tree", ?_, fun _ _ => rfl⟩
    match children, h1, h2 with
    | [], _, _ => rfl
    | [_], h1, _ => exact absurd rfl h1
    | [_, _], _, h2 => exact absurd rfl h2
    | _ :: _ :: _ :: _, _, _ => rfl

/-! ## Sequences of calls -/

theorem visitAll_of_latched (env : Env) (n : NmtNodeAdder) (e : Error) (h : n.err = some e)
    (vs : List VisitCall) : visitAll env n vs = .returned n := by
  induction vs with
  | nil => rfl
  | cons v vs ih => simp [visitAll, Visit_of_latched env n v.hash v.children e h, ih]

/-- With every Add succeeding, valid visits of an adder that has no latched
error and has already seen the CID id return, latch nothing, keep id in the
set, and record no further Add of a leaf with that CID. -/
theorem visitAll_seen_leaf (env : Env) (hadd : ∀ a nd, env.addErr a nd = none) (id : Cid)
    (vs : List VisitCall) (hvs : ∀ v ∈ vs, v.Valid env) (n : NmtNodeAdder)
    (herr : n.err = none) (hmem : id ∈ n.leaves) :
    ∃ n2 newAdds, visitAll env n vs = .returned n2 ∧ n2.err = none ∧ id ∈ n2.leaves ∧
      n2.add.adds = n.add.adds ++ newAdds ∧ newAdds.filter (isLeafAdd id) = [] := by
  induction vs generalizing n with
  | nil => exact ⟨n, [], rfl, herr, hmem, by simp, rfl⟩
  | cons v vs ih =>
    have hv : v.Valid env := hvs v (List.mem_cons_self v vs)
    have hrest : ∀ u ∈ vs, u.Valid env := fun u hu => hvs u (List.mem_cons_of_mem v hu)
    obtain ⟨i, n1, _, hr, _, _, hcase⟩ := Visit_valid env n v herr hv
    rcases hcase with ⟨c0, _, _, rfl⟩ | ⟨c0, _, hnot, ha, hl, he⟩ | ⟨c0, c1, _, ha, hl, he⟩
    · obtain ⟨n2, new, h1, h2, h3, h4, h5⟩ := ih hrest n1 herr hmem
      exact ⟨n2, new, by simp only [visitAll, hr]; exact h1, h2, h3, h4, h5⟩
    · have hne : i ≠ id := fun h => hnot (h ▸ hmem)
      obtain ⟨n2, new, h1, h2, h3, h4, h5⟩ := ih hrest n1 (by rw [he]; exact hadd _ _)
        (by rw [hl]; exact Finset.mem_insert_of_mem hmem)
      refine ⟨n2, (Node.NMTLeafNode i c0, none) :: new,
        by simp only [visitAll, hr]; exact h1, h2, h3, ?_, ?_⟩
      · rw [h4, ha]; simp [hadd]
      · simp [List.filter_cons, isLeafAdd, hne, h5]
    · obtain ⟨n2, new, h1, h2, h3, h4, h5⟩ := ih hrest n1 (by rw [he]; exact hadd _ _)
        (by rw [hl]; exact hmem)
      refine ⟨n2, (Node.NMTNode i c0 c1, none) :: new,
        by simp only [visitAll, hr]; exact h1, h2, h3, ?_, ?_⟩
      · rw [h4, ha]; simp [hadd]
      · simp [List.filter_cons, isLeafAdd, h5]

theorem mem_leaves_iff_any (env : Env) (earlier : List VisitCall) (id : Cid) :
    id ∈ (earlier.filterMap (fun u => u.leafCid env)).toFinset ↔
      earlier.any (fun u => u.leafCid env == some id) = true := by
  simp [List.mem_filterMap, List.any_eq_true]

/-- With every Add succeeding, valid visits of an adder with no latched
error whose set holds the CIDs of the earlier leaf visits record the
expected queue and end with the CIDs of all the leaf visits in the set. -/
theorem visitAll_expectedQueue (env : Env) (hadd : ∀ a nd, env.addErr a nd = none)
    (vs : List VisitCall) (hvs : ∀ v ∈ vs, v.Valid env) (n : NmtNodeAdder)
    (earlier : List VisitCall) (herr : n.err = none)
    (hleaves : n.leaves = (earlier.filterMap (fun u => u.leafCid env)).toFinset) :
    ∃ n2, visitAll env n vs = .returned n2 ∧ n2.err = none ∧
      n2.add.isBatch = n.add.isBatch ∧ n2.add.commits = n.add.commits ∧
      n2.add.adds = n.add.adds ++ (expectedQueue env earlier vs).map (fun nd => (nd, none)) ∧
      n2.leaves = ((earlier ++ vs).filterMap (fun u => u.leafCid env)).toFinset := by
  induction vs generalizing n earlier with
  | nil => exact ⟨n, rfl, herr, rfl, rfl, by simp [expectedQueue], by simpa using hleaves⟩
  | cons v vs ih =>
    have hv : v.Valid env := hvs v (List.mem_cons_self v vs)
    have hrest : ∀ u ∈ vs, u.Valid env := fun u hu => hvs u (List.mem_cons_of_mem v hu)
    obtain ⟨i, n1, hid, hr, hb, hc, hcase⟩ := Visit_valid env n v herr hv
    rcases hcase with ⟨c0, hch, hmem, rfl⟩ | ⟨c0, hch, hnot, ha, hl, he⟩ |
      ⟨c0, c1, hch, ha, hl, he⟩
    · have hcid : v.leafCid env = some i := by simp [VisitCall.leafCid, hid, hch]
      have hany := (mem_leaves_iff_any env earlier i).mp (hleaves ▸ hmem)
      obtain ⟨n2, h1, h2, h3, h4, h5, h6⟩ := ih hrest n1 (earlier ++ [v]) herr (by
        rw [List.filterMap_append, List.toFinset_append, ← hleaves]
        simp [hcid, hmem])
      refine ⟨n2, by simp only [visitAll, hr]; exact h1, h2, h3, h4, ?_, ?_⟩
      · rw [h5]; simp [expectedQueue, hcid, hany]
      · rw [h6]; simp
    · have hcid : v.leafCid env = some i := by simp [VisitCall.leafCid, hid, hch]
      have hnode : v.toNode env = some (Node.NMTLeafNode i c0) := by
        simp [VisitCall.toNode, hid, hch]
      have hany : earlier.any (fun u => u.leafCid env == some i) = false := by
        rw [Bool.eq_false_iff]
        intro h
        exact hnot (hleaves ▸ (mem_leaves_iff_any env earlier i).mpr h)
      obtain ⟨n2, h1, h2, h3, h4, h5, h6⟩ := ih hrest n1 (earlier ++ [v])
        (by rw [he]; exact hadd _ _) (by
        rw [List.filterMap_append, List.toFinset_append, ← hleaves, hl]
        simp [hcid, Finset.insert_eq, Finset.union_comm])
      refine ⟨n2, by simp only [visitAll, hr]; exact h1, h2, h3.trans hb, h4.trans hc, ?_, ?_⟩
      · rw [h5, ha]; simp [expectedQueue, hcid, hany, hnode, hadd]
      · rw [h6]; simp
    · have hcid : v.leafCid env = none := by simp [VisitCall.leafCid, hid, hch]
      have hnode : v.toNode env = some (Node.NMTNode i c0 c1) := by
        simp [VisitCall.toNode, hid, hch]
      obtain ⟨n2, h1, h2, h3, h4, h5, h6⟩ := ih hrest n1 (earlier ++ [v])
        (by rw [he]; exact hadd _ _) (by
        rw [List.filterMap_append, List.toFinset_append, ← hleaves, hl]
        simp [hcid])
      refine ⟨n2, by simp only [visitAll, hr]; exact h1, h2, h3.trans hb, h4.trans hc, ?_, ?_⟩
      · rw [h5, ha]; simp [expectedQueue, hcid, hnode, hadd]
      · rw [h6]; simp

/-- When a sequence holding a call with a wrong number of children runs to
its end without a panic, an error is latched at the end. -/
theorem visitAll_returned_of_bad_arity (env : Env) (vs : List VisitCall) (n n1 : NmtNodeAdder)
    (hbad : ∃ v ∈ vs, v.children.length ≠ 1 ∧ v.children.length ≠ 2)
    (hret : visitAll env n vs = .returned n1) : ∃ e, n1.err = some e := by
  induction vs generalizing n with
  | nil => obtain ⟨v, hv, _⟩ := hbad; cases hv
  | cons v vs ih =>
    simp only [visitAll] at hret
    cases hr : n.Visit env v.hash v.children with
    | panicked msg n2 => rw [hr] at hret; cases hret
    | returned n2 =>
      rw [hr] at hret
      obtain ⟨u, hu, hu1, hu2⟩ := hbad
      rcases List.mem_cons.mp hu with rfl | hu
      · cases he : n.err with
        | none =>
          obtain ⟨msg, hp, _⟩ := Visit_bad_arity env n u.hash u.children he hu1 hu2
          rw [hp] at hr; cases hr
        | some e =>
          rw [Visit_of_latched env n u.hash u.children e he] at hr
          cases hr
          simp only [visitAll_of_latched env n e he vs] at hret
          cases hret
          exact ⟨e, he⟩
      · exact ih n2 ⟨u, hu, hu1, hu2⟩ hret

theorem FirstErrorLatched_visitAll (env : Env) (vs : List VisitCall)
    (hvs : ∀ v ∈ vs, v.Valid env) (n : NmtNodeAdder) (hinv : FirstErrorLatched n) :
    ∃ n2, visitAll env n vs = .returned n2 ∧ FirstErrorLatched n2 := by
  induction vs generalizing n with
  | nil => exact ⟨n, rfl, hinv⟩
  | cons v vs ih =>
    have hv : v.Valid env := hvs v (List.mem_cons_self v vs)
    have hrest : ∀ u ∈ vs, u.Valid env := fun u hu => hvs u (List.mem_cons_of_mem v hu)
    cases he : n.err with
    | some e => exact ⟨n, visitAll_of_latched env n e he (v :: vs), hinv⟩
    | none =>
      have hall : ∀ x ∈ n.add.adds, x.2 = none := by
        rcases hinv with ⟨_, h⟩ | ⟨_, _, e, _, _, h⟩
        · exact h
        · rw [he] at h; cases h
      obtain ⟨i, n1, _, hr, _, _, hcase⟩ := Visit_valid env n v he hv
      have step : ∀ (nd : Node) (o : Option Error), n1.add.adds = n.add.adds ++ [(nd, o)] →
          n1.err = o → FirstErrorLatched n1 := by
        intro nd o ha herr1
        cases o with
        | none =>
          refine Or.inl ⟨herr1, fun x hx => ?_⟩
          rw [ha] at hx
          rcases List.mem_append.mp hx with hx | hx
          · exact hall x hx
          · rw [List.mem_singleton.mp hx]
        | some e => exact Or.inr ⟨n.add.adds, nd, e, ha, hall, herr1⟩
      have hinv1 : FirstErrorLatched n1 := by
        rcases hcase with ⟨c0, _, _, rfl⟩ | ⟨c0, _, _, ha, _, herr1⟩ | ⟨c0, c1, _, ha, _, herr1⟩
        · exact hinv
        · exact step _ _ ha herr1
        · exact step _ _ ha herr1
      obtain ⟨n2, h1, h2⟩ := ih hrest n1 hinv1
      exact ⟨n2, by simp only [visitAll, hr]; exact h1, h2⟩

theorem FirstErrorLatched_spec (n : NmtNodeAdder) (hinv : FirstErrorLatched n)
    (pre post : List (Node × Option Error)) (nd : Node) (e : Error)
    (h : n.add.adds = pre ++ (nd, some e) :: post) :
    post = [] ∧ (∀ x ∈ pre, x.2 = none) ∧ n.err = some e := by
  rcases hinv with ⟨_, hall⟩ | ⟨pre1, nd1, e1, ha, hpre, herr⟩
  · have := hall (nd, some e) (by rw [h]; simp)
    cases this
  · rcases List.eq_nil_or_concat post with rfl | ⟨post1, z, rfl⟩
    · rw [h] at ha
      obtain ⟨h1, h2⟩ := List.append_inj' ha rfl
      simp only [List.cons.injEq, Prod.mk.injEq, Option.some.injEq, and_true] at h2
      obtain ⟨_, rfl⟩ := h2
      exact ⟨rfl, h1 ▸ hpre, herr⟩
    · rw [List.concat_eq_append] at h
      have ha1 : pre1 ++ [(nd1, some e1)] = (pre ++ (nd, some e) :: post1) ++ [z] := by
        rw [← ha, h]; simp
      obtain ⟨h1, _⟩ := List.append_inj' ha1 rfl
      have := hpre (nd, some e) (by rw [h1]; simp)
      cases this


theorem Visit_panicked_unlatched (env : Env) (n n1 : NmtNodeAdder) (hash : Bytes)
    (children : List Bytes) (msg : String)
    (h : n.Visit env hash children = .panicked msg n1) : n.err = none := by
  cases he : n.err with
  | none => rfl
  | some e => rw [Visit_of_latched env n hash children e he] at h; cases h

/-- A sequence of calls that ends in a panic leaves no error latched. -/
theorem visitAll_panicked_unlatched (env : Env) (vs : List VisitCall) (n n1 : NmtNodeAdder)
    (msg : String) (h : visitAll env n vs = .panicked msg n1) : n1.err = none := by
  induction vs generalizing n with
  | nil => cases h
  | cons v vs ih =>
    simp only [visitAll] at h
    cases hr : n.Visit env v.hash v.children with
    | returned n2 => rw [hr] at h; exact ih n2 h
    | panicked m n2 =>
      rw [hr] at h
      cases h
      rw [Visit_panicked_state env n n1 v.hash v.children msg hr]
      exact Visit_panicked_unlatched env n n1 v.hash v.children msg hr

theorem Reachable_visitAll (env : Env) (vs : List VisitCall) (n : NmtNodeAdder)
    (h : Reachable env n) : Reachable env (visitAll env n vs).state := by
  induction vs generalizing n with
  | nil => exact h
  | cons v vs ih =>
    have h1 := Reachable.visit n v.hash v.children h
    simp only [visitAll]
    cases hr : n.Visit env v.hash v.children with
    | returned n2 => rw [hr] at h1; exact ih n2 h1
    | panicked m n2 => rw [hr] at h1; exact h1

/-! ## The claims about a single call -/

/-- C2. Once an error is latched, Visit returns to its caller for every
hash and every list of children, and the adder after the call is the adder
before it: no Add is recorded, and the batch, the set of seen leaves and the
latched error are untouched. -/
theorem Visit_latched_is_noop (env : Env) (n : NmtNodeAdder) (hash : Bytes)
    (children : List Bytes) (h : n.err ≠ none) :
    n.Visit env hash children = .returned n := by
  obtain ⟨e, he⟩ := Option.ne_none_iff_exists'.mp h
  exact Visit_of_latched env n hash children e he

/-- C2, at an adder with a latched error, a hash without a CID and three
children. -/
theorem Visit_latched_is_noop_witness :
    ({ NewNmtNodeAdder with err := some "add failed" } : NmtNodeAdder).err ≠ none ∧
      ({ NewNmtNodeAdder with err := some "add failed" } : NmtNodeAdder).Visit
          (sampleEnv [] none) [] [[1], [2], [3]] =
        .returned { NewNmtNodeAdder with err := some "add failed" } :=
  ⟨by decide, Visit_latched_is_noop _ _ _ _ (by decide)⟩

/-- C3. On every adder the code builds, Commit with a latched error
returns exactly that error and leaves the adder, hence the batch, as it
was: Commit is not called on the batch. With no latched error, Commit calls
Commit on the batch exactly once and returns exactly what that call
answered. -/
theorem Commit_result (env : Env) (n : NmtNodeAdder) (hbuilt : Reachable env n) :
    (∀ e, n.err = some e → n.Commit env = (n, some e)) ∧
    (n.err = none →
      n.Commit env =
        ({ n with add := { n.add with commits := n.add.commits + 1 } },
          env.commitErr n.add)) :=
  ⟨fun e he => Commit_of_latched env n e he,
   fun he => Commit_of_unlatched_batch env n he (Reachable_isBatch env n hbuilt)⟩

/-- C3, at the adder after a leaf was queued, with a flush that fails, and
at the adder after a failed Add. -/
theorem Commit_result_witness :
    Reachable (sampleEnv [] (some "flush failed"))
      (NewNmtNodeAdder.Visit (sampleEnv [] (some "flush failed")) [1] [[7]]).state ∧
    (NewNmtNodeAdder.Visit (sampleEnv [] (some "flush failed")) [1] [[7]]).state.Commit
        (sampleEnv [] (some "flush failed")) =
      ({ add := { isBatch := true
                  adds := [(Node.NMTLeafNode ⟨[1]⟩ [7], none)]
                  commits := 1 }
         leaves := {⟨[1]⟩}
         err := none }, some "flush failed") ∧
    Reachable (sampleEnv [⟨[1]⟩] none)
      (NewNmtNodeAdder.Visit (sampleEnv [⟨[1]⟩] none) [1] [[7]]).state ∧
    (NewNmtNodeAdder.Visit (sampleEnv [⟨[1]⟩] none) [1] [[7]]).state.Commit
        (sampleEnv [⟨[1]⟩] none) =
      ((NewNmtNodeAdder.Visit (sampleEnv [⟨[1]⟩] none) [1] [[7]]).state, some "add failed") :=
  ⟨Reachable.visit _ _ _ Reachable.new,
   ((Commit_result (sampleEnv [] (some "flush failed")) _
      (Reachable.visit NewNmtNodeAdder [1] [[7]] Reachable.new)).2 (by decide)).trans
      (by decide),
   Reachable.visit _ _ _ Reachable.new,
   (Commit_result (sampleEnv [⟨[1]⟩] none) _
      (Reachable.visit NewNmtNodeAdder [1] [[7]] Reachable.new)).1 "add failed" (by decide)⟩

/-- C4 as stated fails: after a failed Add has latched its error, a Visit
with no child, and one with three children, return to the caller and leave
the adder as it was. -/
theorem Visit_bad_arity_after_error_returns :
    (NewNmtNodeAdder.Visit (sampleEnv [⟨[1]⟩] none) [1] [[7]]).state.err = some "add failed" ∧
    (NewNmtNodeAdder.Visit (sampleEnv [⟨[1]⟩] none) [1] [[7]]).state.Visit
        (sampleEnv [⟨[1]⟩] none) [2] [] =
      .returned (NewNmtNodeAdder.Visit (sampleEnv [⟨[1]⟩] none) [1] [[7]]).state ∧
    (NewNmtNodeAdder.Visit (sampleEnv [⟨[1]⟩] none) [1] [[7]]).state.Visit
        (sampleEnv [⟨[1]⟩] none) [2] [[3], [4], [5]] =
      .returned (NewNmtNodeAdder.Visit (sampleEnv [⟨[1]⟩] none) [1] [[7]]).state := by
  decide

/-- C4, amended. On an adder with no latched error, a Visit whose number
of children is neither 1 nor 2 panics, for every hash: it never returns to
its caller. The adder is left as it was, and when the hash has a CID the
panic value is "expected a binary tree". -/
theorem Visit_bad_arity_panics (env : Env) (n : NmtNodeAdder) (hash : Bytes)
    (children : List Bytes) (herr : n.err = none)
    (h1 : children.length ≠ 1) (h2 : children.length ≠ 2) :
    ∃ msg, n.Visit env hash children = .panicked msg n ∧
      (∀ id, env.MustCidFromNamespacedSha256 hash = .ok id →
        msg = "expected a binary tree") :=
  Visit_bad_arity env n hash children herr h1 h2

/-- C4, amended, at a new adder and a Visit without children. -/
theorem Visit_bad_arity_panics_witness :
    NewNmtNodeAdder.err = none ∧ ([] : List Bytes).length ≠ 1 ∧ ([] : List Bytes).length ≠ 2 ∧
      ∃ msg, NewNmtNodeAdder.Visit (sampleEnv [] none) [1] [] = .panicked msg NewNmtNodeAdder ∧
        (∀ id, (sampleEnv [] none).MustCidFromNamespacedSha256 [1] = .ok id →
          msg = "expected a binary tree") :=
  ⟨rfl, by decide, by decide,
    Visit_bad_arity_panics (sampleEnv [] none) NewNmtNodeAdder [1] [] rfl (by decide) (by decide)⟩

/-- C5. On an adder with no latched error, a Visit with two children
records exactly one Add, of the internal node made of the CID of the hash
and the two children, whatever was visited before; the set of seen leaves
is untouched and the answer of the Add becomes the latched error. Hence k
such visits of one and the same node, when every Add succeeds, record k
Adds of it. -/
theorem Visit_inner_always_adds (env : Env) (n : NmtNodeAdder) (hash c0 c1 : Bytes)
    (id : Cid) (herr : n.err = none)
    (hid : env.MustCidFromNamespacedSha256 hash = .ok id) :
    n.Visit env hash [c0, c1] = .returned
        { add := { n.add with
                   adds := n.add.adds ++
                     [(Node.NMTNode id c0 c1, env.addErr n.add (Node.NMTNode id c0 c1))] }
          leaves := n.leaves
          err := env.addErr n.add (Node.NMTNode id c0 c1) } ∧
    ((∀ a nd, env.addErr a nd = none) → ∀ k : Nat,
      visitAll env n (List.replicate k ⟨hash, [c0, c1]⟩) = .returned
        { n with add := { n.add with
                          adds := n.add.adds ++
                            List.replicate k (Node.NMTNode id c0 c1, none) } }) := by
  refine ⟨Visit_inner env n hash c0 c1 id herr hid, ?_⟩
  intro hadd k
  induction k generalizing n with
  | zero => cases n; simp [visitAll]
  | succ k ih =>
    simp only [List.replicate_succ, visitAll]
    rw [Visit_inner env n hash c0 c1 id herr hid]
    simp only [hadd]
    rw [ih _ rfl]
    simp [herr]

/-- C5, at an adder that has already seen the CID as a leaf and already
added the internal node once: three more visits record three more Adds. -/
theorem Visit_inner_always_adds_witness :
    ((NewNmtNodeAdder.Visit (sampleEnv [] none) [1] [[7]]).state.Visit
        (sampleEnv [] none) [1] [[2], [3]]).state.add.adds.length = 2 ∧
    (visitAll (sampleEnv [] none)
        ((NewNmtNodeAdder.Visit (sampleEnv [] none) [1] [[7]]).state.Visit
          (sampleEnv [] none) [1] [[2], [3]]).state
        (List.replicate 3 ⟨[1], [[2], [3]]⟩)).state.add.adds =
      [(Node.NMTLeafNode ⟨[1]⟩ [7], none), (Node.NMTNode ⟨[1]⟩ [2] [3], none)] ++
        List.replicate 3 (Node.NMTNode ⟨[1]⟩ [2] [3], none) :=
  ⟨by decide, by
    rw [(Visit_inner_always_adds (sampleEnv [] none)
      ((NewNmtNodeAdder.Visit (sampleEnv [] none) [1] [[7]]).state.Visit
        (sampleEnv [] none) [1] [[2], [3]]).state [1] [2] [3] ⟨[1]⟩ (by decide) rfl).2
      (by intro a nd; cases nd <;> rfl) 3]
    decide⟩

/-- C10. Deduplication of leaves looks at the CID of the hash only. On an
adder with no latched error, Visit(h, p) returns and leaves the CID of h in
the set of seen leaves whatever its Add answered; when the CID was already
seen nothing changes, and otherwise the one Add recorded is the leaf with
payload p. If no error got latched, a following Visit(h, q), for any
payload q, changes nothing: no Add is recorded for q. -/
theorem leaf_dedup_ignores_payload (env : Env) (n : NmtNodeAdder) (hash p q : Bytes)
    (id : Cid) (herr : n.err = none)
    (hid : env.MustCidFromNamespacedSha256 hash = .ok id) :
    ∃ n1, n.Visit env hash [p] = .returned n1 ∧
      id ∈ n1.leaves ∧
      (id ∈ n.leaves → n1 = n) ∧
      (id ∉ n.leaves → n1.add.adds = n.add.adds ++
        [(Node.NMTLeafNode id p, env.addErr n.add (Node.NMTLeafNode id p))]) ∧
      (n1.err = none → n1.Visit env hash [q] = .returned n1) := by
  by_cases hmem : id ∈ n.leaves
  · refine ⟨n, Visit_leaf_seen env n hash p id herr hid hmem, hmem, fun _ => rfl,
      fun h => absurd hmem h, fun _ => Visit_leaf_seen env n hash q id herr hid hmem⟩
  · refine ⟨_, Visit_leaf_unseen env n hash p id herr hid hmem, ?_, fun h => absurd h hmem,
      fun _ => rfl, fun h1 => ?_⟩
    · exact Finset.mem_insert_self id n.leaves
    · exact Visit_leaf_seen env _ hash q id h1 hid (Finset.mem_insert_self id n.leaves)

/-- C10, at a new adder whose Add fails: the CID is marked as seen all the
same. -/
theorem leaf_dedup_ignores_payload_witness :
    NewNmtNodeAdder.err = none ∧
    (sampleEnv [⟨[1]⟩] none).MustCidFromNamespacedSha256 [1] = .ok ⟨[1]⟩ ∧
    ∃ n1, NewNmtNodeAdder.Visit (sampleEnv [⟨[1]⟩] none) [1] [[7]] = .returned n1 ∧
      (⟨[1]⟩ : Cid) ∈ n1.leaves ∧
      ((⟨[1]⟩ : Cid) ∈ NewNmtNodeAdder.leaves → n1 = NewNmtNodeAdder) ∧
      ((⟨[1]⟩ : Cid) ∉ NewNmtNodeAdder.leaves → n1.add.adds = NewNmtNodeAdder.add.adds ++
        [(Node.NMTLeafNode ⟨[1]⟩ [7],
          (sampleEnv [⟨[1]⟩] none).addErr NewNmtNodeAdder.add (Node.NMTLeafNode ⟨[1]⟩ [7]))]) ∧
      (n1.err = none → n1.Visit (sampleEnv [⟨[1]⟩] none) [1] [[8]] = .returned n1) :=
  ⟨rfl, rfl, leaf_dedup_ignores_payload (sampleEnv [⟨[1]⟩] none) NewNmtNodeAdder [1] [7] [8]
    ⟨[1]⟩ rfl rfl⟩

/-! ## The claims about sequences of calls -/

/-- C1. Take an adder with no latched error and an empty set of seen
leaves, and let every Add succeed. Visit(h, p), then any valid visits, then
Visit(h, p) again: all of them return, the Adds recorded along the way hold
exactly one Add of a leaf with the CID of h (the leaf with payload p), and
the second Visit(h, p) leaves the adder exactly as it found it, so it
records no Add and changes neither the set nor the latch. -/
theorem Visit_same_leaf_twice (env : Env) (n : NmtNodeAdder) (hash p : Bytes) (id : Cid)
    (between : List VisitCall)
    (herr : n.err = none) (hempty : n.leaves = ∅)
    (hadd : ∀ a nd, env.addErr a nd = none)
    (hid : env.MustCidFromNamespacedSha256 hash = .ok id)
    (hvalid : ∀ v ∈ between, v.Valid env) :
    ∃ n1 n2 newAdds,
      n.Visit env hash [p] = .returned n1 ∧
      visitAll env n1 between = .returned n2 ∧
      n2.Visit env hash [p] = .returned n2 ∧
      n2.add.adds = n.add.adds ++ newAdds ∧
      newAdds.filter (isLeafAdd id) = [(Node.NMTLeafNode id p, none)] := by
  have hnot : id ∉ n.leaves := by simp [hempty]
  have h1 := Visit_leaf_unseen env n hash p id herr hid hnot
  generalize hn1 : ({ add := { n.add with
                               adds := n.add.adds ++
                                 [(Node.NMTLeafNode id p,
                                   env.addErr n.add (Node.NMTLeafNode id p))] }
                      leaves := insert id n.leaves
                      err := env.addErr n.add (Node.NMTLeafNode id p) } : NmtNodeAdder) = n1
    at h1
  have he1 : n1.err = none := by rw [← hn1]; exact hadd _ _
  have hl1 : id ∈ n1.leaves := by rw [← hn1]; exact Finset.mem_insert_self id n.leaves
  have ha1 : n1.add.adds = n.add.adds ++ [(Node.NMTLeafNode id p, none)] := by
    rw [← hn1]; simp [hadd]
  obtain ⟨n2, new, h2, h3, h4, h5, h6⟩ :=
    visitAll_seen_leaf env hadd id between hvalid n1 he1 hl1
  refine ⟨n1, n2, (Node.NMTLeafNode id p, none) :: new, h1, h2,
    Visit_leaf_seen env n2 hash p id h3 hid h4, ?_, ?_⟩
  · rw [h5, ha1]; simp
  · simp [List.filter_cons, isLeafAdd, h6]

/-- C1, at a new adder, with another leaf, an internal node carrying the
same hash and the same leaf with another payload in between. -/
theorem Visit_same_leaf_twice_witness :
    NewNmtNodeAdder.err = none ∧ NewNmtNodeAdder.leaves = ∅ ∧
    (∀ a nd, (sampleEnv [] none).addErr a nd = none) ∧
    (sampleEnv [] none).MustCidFromNamespacedSha256 [1] = .ok ⟨[1]⟩ ∧
    (∀ v ∈ ([⟨[2], [[8]]⟩, ⟨[1], [[2], [3]]⟩, ⟨[1], [[9]]⟩] : List VisitCall),
      v.Valid (sampleEnv [] none)) ∧
    ∃ n1 n2 newAdds,
      NewNmtNodeAdder.Visit (sampleEnv [] none) [1] [[7]] = .returned n1 ∧
      visitAll (sampleEnv [] none) n1 [⟨[2], [[8]]⟩, ⟨[1], [[2], [3]]⟩, ⟨[1], [[9]]⟩] =
        .returned n2 ∧
      n2.Visit (sampleEnv [] none) [1] [[7]] = .returned n2 ∧
      n2.add.adds = NewNmtNodeAdder.add.adds ++ newAdds ∧
      newAdds.filter (isLeafAdd ⟨[1]⟩) = [(Node.NMTLeafNode ⟨[1]⟩ [7], none)] :=
  ⟨rfl, rfl, by intro a nd; cases nd <;> rfl, rfl, by decide,
    Visit_same_leaf_twice (sampleEnv [] none) NewNmtNodeAdder [1] [7] ⟨[1]⟩
      [⟨[2], [[8]]⟩, ⟨[1], [[2], [3]]⟩, ⟨[1], [[9]]⟩] rfl rfl
      (by intro a nd; cases nd <;> rfl) rfl (by decide)⟩

/-- C9. For every sequence of valid Visit calls on a new adder, when every
Add succeeds, all the calls return and the adder ends with no latched
error, with the expected queue as its recorded Adds (the visits mapped to
leaf and internal nodes, in the order of the visits, without the leaf visits
whose CID an earlier leaf visit already had), and with exactly the CIDs of
the leaf visits as its set of seen leaves. -/
theorem visitAll_preserves_order (env : Env) (vs : List VisitCall)
    (hadd : ∀ a nd, env.addErr a nd = none) (hvalid : ∀ v ∈ vs, v.Valid env) :
    visitAll env NewNmtNodeAdder vs = .returned
      { add := { isBatch := true
                 adds := (expectedQueue env [] vs).map (fun nd => (nd, none))
                 commits := 0 }
        leaves := (vs.filterMap (fun u => u.leafCid env)).toFinset
        err := none } := by
  obtain ⟨n2, h1, h2, h3, h4, h5, h6⟩ :=
    visitAll_expectedQueue env hadd vs hvalid NewNmtNodeAdder [] rfl rfl
  rw [h1]
  obtain ⟨⟨b, a, c⟩, l, e⟩ := n2
  simp only [NewNmtNodeAdder, List.nil_append] at h2 h3 h4 h5 h6
  subst h2 h3 h4 h5 h6
  rfl

/-- C9, at five visits: a leaf, another leaf, the first leaf again with
another payload, an internal node and the same internal node again. -/
theorem visitAll_preserves_order_witness :
    (∀ a nd, (sampleEnv [] none).addErr a nd = none) ∧
    (∀ v ∈ ([⟨[1], [[7]]⟩, ⟨[2], [[8]]⟩, ⟨[1], [[9]]⟩, ⟨[3], [[1], [2]]⟩,
        ⟨[3], [[1], [2]]⟩] : List VisitCall), v.Valid (sampleEnv [] none)) ∧
    visitAll (sampleEnv [] none) NewNmtNodeAdder
        [⟨[1], [[7]]⟩, ⟨[2], [[8]]⟩, ⟨[1], [[9]]⟩, ⟨[3], [[1], [2]]⟩, ⟨[3], [[1], [2]]⟩] =
      .returned
        { add := { isBatch := true
                   adds := [(Node.NMTLeafNode ⟨[1]⟩ [7], none), (Node.NMTLeafNode ⟨[2]⟩ [8], none),
                     (Node.NMTNode ⟨[3]⟩ [1] [2], none), (Node.NMTNode ⟨[3]⟩ [1] [2], none)]
                   commits := 0 }
          leaves := {⟨[2]⟩, ⟨[1]⟩}
          err := none } :=
  ⟨by intro a nd; cases nd <;> rfl, by decide,
    (visitAll_preserves_order (sampleEnv [] none)
      [⟨[1], [[7]]⟩, ⟨[2], [[8]]⟩, ⟨[1], [[9]]⟩, ⟨[3], [[1], [2]]⟩, ⟨[3], [[1], [2]]⟩]
      (by intro a nd; cases nd <;> rfl) (by decide)).trans (by decide)⟩

/-- C6. For every sequence of valid Visit calls on a new adder, all the
calls return, and whenever the Adds recorded at the end hold a failed Add,
that Add is the last one recorded (no Add was attempted after it), every Add
before it succeeded, and Commit returns the error of that Add and leaves the
adder as it is. -/
theorem first_error_wins (env : Env) (vs : List VisitCall)
    (hvalid : ∀ v ∈ vs, v.Valid env) :
    ∃ n, visitAll env NewNmtNodeAdder vs = .returned n ∧
      ∀ pre nd e post, n.add.adds = pre ++ (nd, some e) :: post →
        post = [] ∧ (∀ x ∈ pre, x.2 = none) ∧ n.Commit env = (n, some e) := by
  have h0 : FirstErrorLatched NewNmtNodeAdder :=
    Or.inl ⟨rfl, fun x hx => by simp [NewNmtNodeAdder] at hx⟩
  obtain ⟨n, hr, hinv⟩ := FirstErrorLatched_visitAll env vs hvalid NewNmtNodeAdder h0
  refine ⟨n, hr, fun pre nd e post h => ?_⟩
  obtain ⟨h1, h2, h3⟩ := FirstErrorLatched_spec n hinv pre post nd e h
  exact ⟨h1, h2, by simp [NmtNodeAdder.Commit, h3]⟩

/-- C6, at four visits of which the second and the fourth would fail: only
the first failure is attempted. -/
theorem first_error_wins_witness :
    (∀ v ∈ ([⟨[1], [[7]]⟩, ⟨[2], [[8]]⟩, ⟨[3], [[1], [2]]⟩, ⟨[4], [[9]]⟩] : List VisitCall),
      v.Valid (sampleEnv [⟨[2]⟩, ⟨[4]⟩] none)) ∧
    (visitAll (sampleEnv [⟨[2]⟩, ⟨[4]⟩] none) NewNmtNodeAdder
        [⟨[1], [[7]]⟩, ⟨[2], [[8]]⟩, ⟨[3], [[1], [2]]⟩, ⟨[4], [[9]]⟩]).state.add.adds =
      [(Node.NMTLeafNode ⟨[1]⟩ [7], none), (Node.NMTLeafNode ⟨[2]⟩ [8], some "add failed")] ∧
    ∃ n, visitAll (sampleEnv [⟨[2]⟩, ⟨[4]⟩] none) NewNmtNodeAdder
        [⟨[1], [[7]]⟩, ⟨[2], [[8]]⟩, ⟨[3], [[1], [2]]⟩, ⟨[4], [[9]]⟩] = .returned n ∧
      ∀ pre nd e post, n.add.adds = pre ++ (nd, some e) :: post →
        post = [] ∧ (∀ x ∈ pre, x.2 = none) ∧
          n.Commit (sampleEnv [⟨[2]⟩, ⟨[4]⟩] none) = (n, some e) :=
  ⟨by decide, by decide,
    first_error_wins (sampleEnv [⟨[2]⟩, ⟨[4]⟩] none)
      [⟨[1], [[7]]⟩, ⟨[2], [[8]]⟩, ⟨[3], [[1], [2]]⟩, ⟨[4], [[9]]⟩] (by decide)⟩

/-- C7 as stated fails: a Visit without children on an adder that has
queued a leaf panics and latches nothing, and a Commit called on the adder
after that panic flushes the batch with the leaf queued before it. -/
theorem Commit_after_bad_arity_flushes :
    (NewNmtNodeAdder.Visit (sampleEnv [] none) [1] [[7]]).state.Visit
        (sampleEnv [] none) [2] [] =
      .panicked "expected a binary tree"
        (NewNmtNodeAdder.Visit (sampleEnv [] none) [1] [[7]]).state ∧
    ((NewNmtNodeAdder.Visit (sampleEnv [] none) [1] [[7]]).state.Visit
        (sampleEnv [] none) [2] []).state.Commit (sampleEnv [] none) =
      ({ add := { isBatch := true
                  adds := [(Node.NMTLeafNode ⟨[1]⟩ [7], none)]
                  commits := 1 }
         leaves := {⟨[1]⟩}
         err := none }, none) := by
  decide

/-- C7, amended. Take an adder the code builds and a sequence of Visit
calls holding one with 0 or with 3 or more children. Either a Visit panics,
the violating one or one before it: the panic leaves no error latched, so
the adder does not stand in the way of a Commit called after the panic,
which calls Commit on the batch once and returns its answer. Or an error was
latched by the time the violating Visit ran: every Visit returns, and Commit
returns the latched error and leaves the adder as it is, without calling
Commit on the batch. -/
theorem bad_arity_panics_or_latched (env : Env) (n : NmtNodeAdder) (vs : List VisitCall)
    (hbuilt : Reachable env n)
    (hbad : ∃ v ∈ vs, v.children.length ≠ 1 ∧ v.children.length ≠ 2) :
    (∃ msg n1, visitAll env n vs = .panicked msg n1 ∧ n1.err = none ∧
      n1.Commit env =
        ({ n1 with add := { n1.add with commits := n1.add.commits + 1 } },
          env.commitErr n1.add)) ∨
    (∃ n1 e, visitAll env n vs = .returned n1 ∧ n1.err = some e ∧
      n1.Commit env = (n1, some e)) := by
  have hreach := Reachable_visitAll env vs n hbuilt
  cases hr : visitAll env n vs with
  | panicked msg n1 =>
    rw [hr] at hreach
    have he := visitAll_panicked_unlatched env vs n n1 msg hr
    exact Or.inl ⟨msg, n1, rfl, he,
      Commit_of_unlatched_batch env n1 he (Reachable_isBatch env n1 hreach)⟩
  | returned n1 =>
    obtain ⟨e, he⟩ := visitAll_returned_of_bad_arity env vs n n1 hbad hr
    exact Or.inr ⟨n1, e, rfl, he, Commit_of_latched env n1 e he⟩

/-- C7, amended, at a new adder and the calls: a leaf, a Visit without
children, another leaf. The second call panics, so the first disjunct is
the one that holds. -/
theorem bad_arity_panics_or_latched_witness :
    Reachable (sampleEnv [] none) NewNmtNodeAdder ∧
    (∃ v ∈ ([⟨[1], [[7]]⟩, ⟨[2], []⟩, ⟨[3], [[8]]⟩] : List VisitCall),
      v.children.length ≠ 1 ∧ v.children.length ≠ 2) ∧
    (visitAll (sampleEnv [] none) NewNmtNodeAdder
        [⟨[1], [[7]]⟩, ⟨[2], []⟩, ⟨[3], [[8]]⟩]).isReturned = false ∧
    ((∃ msg n1, visitAll (sampleEnv [] none) NewNmtNodeAdder
          [⟨[1], [[7]]⟩, ⟨[2], []⟩, ⟨[3], [[8]]⟩] = .panicked msg n1 ∧ n1.err = none ∧
        n1.Commit (sampleEnv [] none) =
          ({ n1 with add := { n1.add with commits := n1.add.commits + 1 } },
            (sampleEnv [] none).commitErr n1.add)) ∨
      (∃ n1 e, visitAll (sampleEnv [] none) NewNmtNodeAdder
          [⟨[1], [[7]]⟩, ⟨[2], []⟩, ⟨[3], [[8]]⟩] = .returned n1 ∧ n1.err = some e ∧
        n1.Commit (sampleEnv [] none) = (n1, some e))) :=
  ⟨Reachable.new, by decide, by decide,
    bad_arity_panics_or_latched (sampleEnv [] none) NewNmtNodeAdder
      [⟨[1], [[7]]⟩, ⟨[2], []⟩, ⟨[3], [[8]]⟩] Reachable.new (by decide)⟩

end Ipld
